import Mathlib

/-!
Shallow embedding of the request-orchestration core of the gmail_reader
package: token-bucket rate limiting (client.py, TokenBucketRateLimiter),
retry with backoff (client.py, execute_gmail_request), bounded pagination
(reports.py, _fetch_all_messages) and recursive MIME body decoding with
character-encoding fallback (reports.py, _parse_body and _decode_bytes).

Bytes and text are modelled as lists of natural numbers (byte values,
Unicode code points); machine dictionaries are modelled as structures whose
optional fields record key presence.  Python exceptions are modelled with
Except; Python truthiness of strings and integers is modelled explicitly at
each use site.
-/

namespace GmailReader

/-! ## Configuration constants (config.py, default values) -/

def MAX_PAGES : Nat := 1000
def MAX_MESSAGES_IN_MEMORY : Nat := 10000
def MAX_MIME_DEPTH : Nat := 50
def GMAIL_MAX_RETRIES : Nat := 3

/-! ## Byte-to-text decoding (reports.py, _decode_bytes)

The input is a list of byte values (each < 256 in the source's domain);
the output is a list of Unicode code points.  Python's strict utf-8,
windows-1252 and iso-8859-1 codecs are modelled, followed by the lossy
utf-8 decode with replacement. -/

/-- One byte is a UTF-8 continuation byte. -/
def isCont (b : Nat) : Bool := 0x80 ≤ b && b ≤ 0xBF

/-- Strict UTF-8 decoding of a byte list to code points; none on any
invalid sequence (overlong forms, surrogates and out-of-range values are
rejected, as in Python's strict utf-8 codec). -/
def decodeUtf8 : List Nat → Option (List Nat)
  | [] => some []
  | b :: rest =>
    if b < 0x80 then
      (decodeUtf8 rest).map (fun cs => b :: cs)
    else if 0xC2 ≤ b && b ≤ 0xDF then
      match rest with
      | c1 :: r =>
        if isCont c1 then
          (decodeUtf8 r).map (fun cs => ((b - 0xC0) * 64 + (c1 - 0x80)) :: cs)
        else none
      | [] => none
    else if 0xE0 ≤ b && b ≤ 0xEF then
      match rest with
      | c1 :: c2 :: r =>
        let lo1 : Nat := if b = 0xE0 then 0xA0 else 0x80
        let hi1 : Nat := if b = 0xED then 0x9F else 0xBF
        if lo1 ≤ c1 && c1 ≤ hi1 && isCont c2 then
          (decodeUtf8 r).map (fun cs =>
            ((b - 0xE0) * 4096 + (c1 - 0x80) * 64 + (c2 - 0x80)) :: cs)
        else none
      | _ => none
    else if 0xF0 ≤ b && b ≤ 0xF4 then
      match rest with
      | c1 :: c2 :: c3 :: r =>
        let lo1 : Nat := if b = 0xF0 then 0x90 else 0x80
        let hi1 : Nat := if b = 0xF4 then 0x8F else 0xBF
        if lo1 ≤ c1 && c1 ≤ hi1 && isCont c2 && isCont c3 then
          (decodeUtf8 r).map (fun cs =>
            ((b - 0xF0) * 262144 + (c1 - 0x80) * 4096 +
              (c2 - 0x80) * 64 + (c3 - 0x80)) :: cs)
        else none
      | _ => none
    else none

/-- Windows-1252 value of one byte: identity outside 0x80-0x9F, the cp1252
table inside that range, with the five unassigned bytes rejected (Python's
windows-1252 codec raises on them in strict mode). -/
def cp1252Byte (b : Nat) : Option Nat :=
  if b < 0x80 then some b
  else if 0xA0 ≤ b && b < 0x100 then some b
  else if b ≥ 0x100 then none
  else match b with
  | 0x80 => some 0x20AC
  | 0x82 => some 0x201A
  | 0x83 => some 0x0192
  | 0x84 => some 0x201E
  | 0x85 => some 0x2026
  | 0x86 => some 0x2020
  | 0x87 => some 0x2021
  | 0x88 => some 0x02C6
  | 0x89 => some 0x2030
  | 0x8A => some 0x0160
  | 0x8B => some 0x2039
  | 0x8C => some 0x0152
  | 0x8E => some 0x017D
  | 0x91 => some 0x2018
  | 0x92 => some 0x2019
  | 0x93 => some 0x201C
  | 0x94 => some 0x201D
  | 0x95 => some 0x2022
  | 0x96 => some 0x2013
  | 0x97 => some 0x2014
  | 0x98 => some 0x02DC
  | 0x99 => some 0x2122
  | 0x9A => some 0x0161
  | 0x9B => some 0x203A
  | 0x9C => some 0x0153
  | 0x9E => some 0x017E
  | 0x9F => some 0x0178
  | _ => none

/-- Windows-1252 decoding of a byte list; none when any byte is unassigned. -/
def decodeCp1252 (bs : List Nat) : Option (List Nat) :=
  bs.mapM cp1252Byte

/-- ISO-8859-1 decoding: every byte maps to the code point of the same
value, so decoding a byte string never fails. -/
def decodeLatin1 (bs : List Nat) : Option (List Nat) :=
  some bs

/-- Lossy UTF-8 decoding with replacement: valid sequences decode as in
strict mode and each offending byte is replaced by U+FFFD.  Unreachable
from decode_bytes because iso-8859-1 accepts every byte string, but kept
because the source carries the fallback. -/
def decodeUtf8Replace : List Nat → List Nat
  | [] => []
  | b :: rest =>
    if b < 0x80 then b :: decodeUtf8Replace rest
    else if 0xC2 ≤ b && b ≤ 0xDF then
      match rest with
      | c1 :: r =>
        if isCont c1 then ((b - 0xC0) * 64 + (c1 - 0x80)) :: decodeUtf8Replace r
        else 0xFFFD :: decodeUtf8Replace (c1 :: r)
      | [] => [0xFFFD]
    else 0xFFFD :: decodeUtf8Replace rest
termination_by bs => bs.length
decreasing_by all_goals (simp only [List.length_cons]; omega)

/-- reports.py, _decode_bytes: try utf-8, then windows-1252, then
iso-8859-1, in that order, then fall back to lossy utf-8. -/
def decode_bytes (data : List Nat) : List Nat :=
  match decodeUtf8 data with
  | some s => s
  | none =>
    match decodeCp1252 data with
    | some s => s
    | none =>
      match decodeLatin1 data with
      | some s => s
      | none => decodeUtf8Replace data

/-! ## Base64url decoding (Python base64.urlsafe_b64decode)

Input characters are given as code points.  Python translates the urlsafe
alphabet to the standard one, silently discards characters outside the
alphabet, and raises binascii.Error when the count of alphabet characters
plus padding is not a multiple of four. -/

/-- Sextet value of one base64 character, accepting both the standard and
the urlsafe alphabet (urlsafe_b64decode translates minus to plus and
underscore to slash before decoding). -/
def b64CharVal (c : Nat) : Option Nat :=
  if 65 ≤ c && c ≤ 90 then some (c - 65)
  else if 97 ≤ c && c ≤ 122 then some (c - 97 + 26)
  else if 48 ≤ c && c ≤ 57 then some (c - 48 + 52)
  else if c = 43 || c = 45 then some 62
  else if c = 47 || c = 95 then some 63
  else none

/-- Assemble bytes from a list of sextets, three bytes per group of four;
a trailing group of two or three sextets contributes one or two bytes. -/
def b64Groups : List Nat → List Nat
  | a :: b :: c :: d :: rest =>
    (a * 4 + b / 16) :: ((b % 16) * 16 + c / 4) :: ((c % 4) * 64 + d) ::
      b64Groups rest
  | [a, b] => [a * 4 + b / 16]
  | [a, b, c] => [a * 4 + b / 16, (b % 16) * 16 + c / 4]
  | _ => []

/-- Python base64.urlsafe_b64decode on a character list: characters outside
the base64 alphabet and padding are discarded, the remaining length
together with the padding must be a multiple of four, and the sextets are
packed into bytes.  Errors model binascii.Error. -/
def urlsafe_b64decode (s : List Nat) : Except Unit (List Nat) :=
  let kept := s.filter (fun c => (b64CharVal c).isSome || c = 61)
  let main := kept.takeWhile (fun c => c ≠ 61)
  let padCount := kept.length - main.length
  if (main.length + padCount) % 4 = 0 && padCount ≤ 2 then
    .ok (b64Groups (main.filterMap b64CharVal))
  else
    .error ()

/-! ## MIME payload model (Gmail message payload dictionaries)

A payload dictionary has an optional mimeType string, an optional body
dictionary with an optional data string (base64url characters), and an
optional list of child part dictionaries.  Option records key presence;
Python truthiness of the data string is checked separately where the
source checks it. -/

structure MsgBody where
  data : Option (List Nat)
deriving DecidableEq

inductive Payload where
  | mk (mimeType : Option String) (body : Option MsgBody)
       (childParts : Option (List Payload))

def Payload.mimeType : Payload → Option String
  | .mk m _ _ => m

def Payload.body : Payload → Option MsgBody
  | .mk _ b _ => b

def Payload.childParts : Payload → Option (List Payload)
  | .mk _ _ p => p

/-- ASCII lower-casing of a character code. -/
def lowerChar (c : Nat) : Nat :=
  if 65 ≤ c && c ≤ 90 then c + 32 else c

/-- Whether the list of character codes contains the letters h, t, m, l
contiguously. -/
def containsHtmlSeq : List Nat → Bool
  | 104 :: 116 :: 109 :: 108 :: _ => true
  | _ :: rest => containsHtmlSeq rest
  | [] => false

/-- Python: the substring html occurs in mime_type.lower(). -/
def mimeHasHtml (m : String) : Bool :=
  containsHtmlSeq ((m.toList.map Char.toNat).map lowerChar)

/-- The sentinel string "(parsing error)" as code points. -/
def parsingErrorStr : List Nat := "(parsing error)".toList.map Char.toNat

/-- Python truthiness-based assignment t = t or s for strings. -/
def pyOrStr (a b : List Nat) : List Nat := if a = [] then b else a

/-- The source's simple-body test: the body key exists and its data entry
is present and truthy (a non-empty string). -/
def inlineData (p : Payload) : Option (List Nat) :=
  match p.body with
  | some b =>
    match b.data with
    | some d => if d = [] then none else some d
    | none => none
  | none => none

/-- The source's per-part test inside the loop: the data key exists in the
part's body dictionary (an empty string still counts as present). -/
def dataKey (p : Payload) : Option (List Nat) :=
  p.body.bind MsgBody.data

mutual

/-- The try-block of reports.py, _parse_body: decode a truthy inline body
directly, classifying it by whether the mime type contains html;
otherwise walk the child parts.  An error is a caught Python exception
(invalid base64). -/
def parseCore (p : Payload) (depth : Nat) :
    Except Unit (List Nat × List Nat) :=
  match inlineData p with
  | some d =>
    match urlsafe_b64decode d with
    | .error e => .error e
    | .ok bytes =>
      if mimeHasHtml (p.mimeType.getD "text/plain") then
        .ok ([], decode_bytes bytes)
      else
        .ok (decode_bytes bytes, [])
  | none => parseLoop (p.childParts.getD []) depth [] []
termination_by sizeOf p
decreasing_by
  rcases p with ⟨m, b, cp⟩
  cases cp <;> simp [Payload.childParts] <;> omega

/-- The for-loop of _parse_body over the child parts, threading the
text and html accumulators; a text/plain or text/html child with a data
key overwrites its accumulator, a child with a parts key is recursed into
with depth+1 through the catching wrapper, and its results fill only the
accumulators that are still empty. -/
def parseLoop (ps : List Payload) (depth : Nat) (tAcc hAcc : List Nat) :
    Except Unit (List Nat × List Nat) :=
  match ps with
  | [] => .ok (tAcc, hAcc)
  | part :: rest =>
    if part.mimeType.getD "" = "text/plain" ∧ (dataKey part).isSome then
      match urlsafe_b64decode ((dataKey part).getD []) with
      | .error e => .error e
      | .ok bytes => parseLoop rest depth (decode_bytes bytes) hAcc
    else if part.mimeType.getD "" = "text/html" ∧ (dataKey part).isSome then
      match urlsafe_b64decode ((dataKey part).getD []) with
      | .error e => .error e
      | .ok bytes => parseLoop rest depth tAcc (decode_bytes bytes)
    else if (part.childParts).isSome then
      let nested :=
        if depth + 1 > MAX_MIME_DEPTH then ([], [])
        else
          match parseCore part (depth + 1) with
          | .ok r => r
          | .error _ => (parsingErrorStr, parsingErrorStr)
      parseLoop rest depth (pyOrStr tAcc nested.1) (pyOrStr hAcc nested.2)
    else
      parseLoop rest depth tAcc hAcc
termination_by sizeOf ps
decreasing_by all_goals simp <;> omega

end

/-- reports.py, _parse_body: guard the recursion depth, then run the
try-block, mapping any caught exception to the sentinel pair. -/
def parse_body (p : Payload) (depth : Nat) : List Nat × List Nat :=
  if depth > MAX_MIME_DEPTH then ([], [])
  else
    match parseCore p depth with
    | .ok r => r
    | .error _ => (parsingErrorStr, parsingErrorStr)

/-! ## HTTP failures and the request executor (client.py)

An attempt sequence maps the attempt index to the outcome of invoking the
request callable on that attempt: either the response payload or an
HttpError carrying a status code and an optional retry-after header. -/

structure HttpErr where
  status : Nat
  retryAfter : Option String
deriving DecidableEq

/-- client.py, _RETRYABLE_STATUS_CODES membership. -/
def retryableStatus (s : Nat) : Bool :=
  s = 429 || s = 500 || s = 502 || s = 503

/-- How execute_gmail_request ends: re-raising an HttpError, or the
defensive RuntimeError of the unreachable fall-through. -/
inductive ExecErr where
  | http (e : HttpErr)
  | runtimeError
deriving DecidableEq

/-- The retry loop of client.py, execute_gmail_request, from attempt
index i with the last recorded retryable error: return the first
successful payload; on a retryable error with attempts remaining record
it and continue; otherwise re-raise.  The guard models loop exhaustion
and the safety net after the loop. -/
def execFrom (attempt : Nat → Except HttpErr α) (maxR i : Nat)
    (lastErr : Option HttpErr) : Except ExecErr α :=
  if h : maxR + 1 ≤ i then
    match lastErr with
    | some e => .error (.http e)
    | none => .error .runtimeError
  else
    match attempt i with
    | .ok v => .ok v
    | .error e =>
      if retryableStatus e.status then
        if i < maxR then execFrom attempt maxR (i + 1) (some e)
        else .error (.http e)
      else .error (.http e)
termination_by maxR + 1 - i
decreasing_by omega

/-- client.py, execute_gmail_request with the configured retry budget. -/
def execute_gmail_request (attempt : Nat → Except HttpErr α) :
    Except ExecErr α :=
  execFrom attempt GMAIL_MAX_RETRIES 0 none

/-- Number of times the request callable is invoked by the retry loop
from attempt index i (mirrors the recursion of execFrom). -/
def execAttemptsFrom (attempt : Nat → Except HttpErr α) (maxR i : Nat) :
    Nat :=
  if maxR + 1 ≤ i then 0
  else
    match attempt i with
    | .ok _ => 1
    | .error e =>
      if retryableStatus e.status && i < maxR then
        1 + execAttemptsFrom attempt maxR (i + 1)
      else 1
termination_by maxR + 1 - i
decreasing_by omega

/-- Attempts performed by execute_gmail_request. -/
def executeAttempts (attempt : Nat → Except HttpErr α) : Nat :=
  execAttemptsFrom attempt GMAIL_MAX_RETRIES 0

/-! ## Pagination (reports.py, _fetch_all_messages)

The network is modelled as a function from the call index (the current
page count) and the request parameters to the outcome of the wrapped
execute_gmail_request call: a page dictionary or a raised HttpError. -/

structure Msg where
  id : String
  threadId : String
deriving DecidableEq

structure Page where
  messages : List Msg
  nextPageToken : Option String
deriving DecidableEq

structure ListParams where
  maxResultsParam : Nat
  q : Option String
  pageToken : Option String
deriving DecidableEq

/-- Python max_results or 500 for an optional int (0 and None are falsy). -/
def pyOrNat : Option Nat → Nat → Nat
  | some k, dflt => if k = 0 then dflt else k
  | none, dflt => dflt

/-- Python: if max_results and len(all_messages) >= max_results. -/
def maxResultsHit : Option Nat → Nat → Bool
  | some k, len => !(k = 0 : Bool) && k ≤ len
  | none, _ => false

/-- A parameter included only when the optional string is truthy. -/
def truthyStr : Option String → Option String
  | some s => if s = "" then none else some s
  | none => none

/-- The params dictionary built for each list request: a per-page cap of
min(500, max_results or 500), the query if truthy, the continuation token
if truthy. -/
def mkParams (maxResults : Option Nat) (query : Option String)
    (pageToken : Option String) : ListParams :=
  { maxResultsParam := min 500 (pyOrNat maxResults 500),
    q := truthyStr query, pageToken := truthyStr pageToken }

/-- One iteration of the while-loop of _fetch_all_messages and its
recursive continuation: stop at the page ceiling; issue the list request;
append the returned stubs; stop at the in-memory ceiling (truncating),
at max_results (truncating), on a missing or falsy continuation token, or
on a token already seen; otherwise record the token and continue. -/
def fetchLoop (ex : Nat → ListParams → Except HttpErr Page)
    (query : Option String) (maxResults : Option Nat)
    (seenTokens : List String) (acc : List Msg)
    (pageToken : Option String) (pageCount : Nat) :
    Except HttpErr (List Msg) :=
  if h : MAX_PAGES ≤ pageCount then .ok acc
  else
    match ex pageCount (mkParams maxResults query pageToken) with
    | .error e => .error e
    | .ok page =>
      let acc2 := acc ++ page.messages
      if MAX_MESSAGES_IN_MEMORY ≤ acc2.length then
        .ok (acc2.take MAX_MESSAGES_IN_MEMORY)
      else if maxResultsHit maxResults acc2.length then
        .ok (acc2.take (maxResults.getD 0))
      else
        match page.nextPageToken with
        | none => .ok acc2
        | some t =>
          if t = "" then .ok acc2
          else if t ∈ seenTokens then .ok acc2
          else
            fetchLoop ex query maxResults (t :: seenTokens) acc2 (some t)
              (pageCount + 1)
termination_by MAX_PAGES - pageCount
decreasing_by omega

/-- reports.py, _fetch_all_messages: run the pagination loop from an
empty session. -/
def fetch_all_messages (ex : Nat → ListParams → Except HttpErr Page)
    (query : Option String) (maxResults : Option Nat) :
    Except HttpErr (List Msg) :=
  fetchLoop ex query maxResults [] [] none 0

/-! ## Token-bucket rate limiter (client.py, TokenBucketRateLimiter)

Wall-clock instants and token balances are rationals.  acquire is a
function of the state and the instant the lock is taken, returning the
new state and the instant the call returns (after any sleep, which the
source performs while holding the lock). -/

structure LimState where
  tokens : ℚ
  last : ℚ
deriving DecidableEq

/-- The lazy refill on entry to acquire. -/
def refillTokens (rate cap : ℚ) (s : LimState) (now : ℚ) : ℚ :=
  min cap (s.tokens + (now - s.last) * rate)

/-- client.py, TokenBucketRateLimiter.acquire at instant now: refill,
then either sleep until a full token has accrued (leaving a zero balance)
or consume one token immediately.  The second component is the instant
the acquirer proceeds (its consumption time). -/
def acquireStep (rate cap : ℚ) (s : LimState) (now : ℚ) :
    LimState × ℚ :=
  let tk := refillTokens rate cap s now
  if tk < 1 then (⟨0, now⟩, now + (1 - tk) / rate)
  else (⟨tk - 1, now⟩, now)

/-- Run a sequence of acquire calls at the given instants, threading the
state and the completion instant of the latest call. -/
def runAcquires (rate cap : ℚ) : LimState → ℚ → List ℚ → LimState × ℚ
  | s, cprev, [] => (s, cprev)
  | s, _, now :: rest =>
    let r := acquireStep rate cap s now
    runAcquires rate cap r.1 r.2 rest

/-- The call instants are admissible: the limiter's lock serialises the
acquires, so each call is taken no earlier than the completion of the
previous one. -/
def validRun (rate cap : ℚ) : LimState → ℚ → List ℚ → Bool
  | _, _, [] => true
  | s, cprev, now :: rest =>
    decide (cprev ≤ now) &&
      validRun rate cap (acquireStep rate cap s now).1
        (acquireStep rate cap s now).2 rest

/-- The token balance the state grants at instant t (its lazily refilled
level). -/
def creditAt (rate cap : ℚ) (s : LimState) (t : ℚ) : ℚ :=
  min cap (s.tokens + (t - s.last) * rate)

/-! ## Concrete inputs used in examples and counterexamples -/

/-- Base64url of the two bytes of hi. -/
def hiB64 : List Nat := [97, 71, 107, 61]

/-- Code points of hi. -/
def hiCodes : List Nat := [104, 105]

/-- A text/plain part whose data decodes to hi. -/
def plainHiPart : Payload := .mk (some "text/plain") (some ⟨some hiB64⟩) none

/-- A multipart chain nested n levels above a text/plain leaf. -/
def nestChain : Nat → Payload
  | 0 => plainHiPart
  | n + 1 => .mk (some "multipart/mixed") none (some [nestChain n])

/-- A document with a text/plain child and a sibling chain nested five
levels beyond the recursion cap. -/
def deepDoc : Payload :=
  .mk (some "multipart/mixed") none
    (some [plainHiPart, nestChain (MAX_MIME_DEPTH + 5)])

/-- Base64url of the single byte of the letter A. -/
def aB64 : List Nat := [81, 81, 61, 61]

/-- Base64url of the single byte of the letter B. -/
def bB64 : List Nat := [81, 103, 61, 61]

/-- A text/plain part whose data decodes to A. -/
def aPart : Payload := .mk (some "text/plain") (some ⟨some aB64⟩) none

/-- A text/plain part whose data decodes to B. -/
def bPart : Payload := .mk (some "text/plain") (some ⟨some bB64⟩) none

/-- A composite document with two text/plain children holding A then B. -/
def twoTextDoc : Payload :=
  .mk (some "multipart/mixed") none (some [aPart, bPart])

/-- A simple document whose inline data is not valid base64 (one
character). -/
def badB64Doc : Payload := .mk (some "text/plain") (some ⟨some [81]⟩) none

/-- A message stub used in pagination scenarios. -/
def m0 : Msg := ⟨"m0", "t0"⟩

/-- An HTTP 404 failure. -/
def err404 : HttpErr := ⟨404, none⟩

/-- A server whose every request raises HTTP 404 through the executor. -/
def failServer : Nat → ListParams → Except HttpErr Page :=
  fun _ _ => .error err404

/-- A server returning a single empty final page. -/
def emptyServer : Nat → ListParams → Except HttpErr Page :=
  fun _ _ => .ok ⟨[], none⟩

/-- A server returning one final page with one stub. -/
def oneMsgServer : Nat → ListParams → Except HttpErr Page :=
  fun _ _ => .ok ⟨[m0], none⟩

/-- The n-th continuation token of the well-behaved server: n+1 copies of
the letter a, so tokens of distinct pages are distinct and never empty. -/
def tokN (n : Nat) : String := String.mk (List.replicate (n + 1) 'a')

/-- A well-behaved server holding the given stubs, serving one stub per
page with a fresh continuation token while more remain. -/
def onePerServer (msgs : List Msg) : Nat → ListParams → Except HttpErr Page :=
  fun n _ =>
    .ok ⟨[msgs.getD n m0],
      if n + 1 < msgs.length then some (tokN n) else none⟩

/-- A server whose page n carries continuation token tokN n except that
page 2 repeats token tokN 0, creating a cycle. -/
def cycleServer : Nat → ListParams → Except HttpErr Page :=
  fun n _ =>
    .ok ⟨[m0], if n = 2 then some (tokN 0) else some (tokN n)⟩

/-- A server returning one page holding 10500 stubs, exceeding the
in-memory ceiling in a single page. -/
def bigServer : Nat → ListParams → Except HttpErr Page :=
  fun _ _ => .ok ⟨List.replicate 10500 m0, none⟩

/-- An attempt sequence failing twice with HTTP 429 and then succeeding. -/
def twoFailAttempt : Nat → Except HttpErr Nat :=
  fun i => if i < 2 then .error ⟨429, none⟩ else .ok 7

/-- An attempt sequence failing every time with HTTP 503. -/
def allFailAttempt : Nat → Except HttpErr Nat :=
  fun _ => .error ⟨503, none⟩

/-! ## Step lemmas for the body parser -/

theorem parseLoop_nil (depth : Nat) (tAcc hAcc : List Nat) :
    parseLoop [] depth tAcc hAcc = .ok (tAcc, hAcc) := by
  rw [parseLoop.eq_def]

theorem parseLoop_plain {part : Payload} {d bs : List Nat}
    (hm : part.mimeType = some "text/plain") (hd : dataKey part = some d)
    (hb : urlsafe_b64decode d = .ok bs) (rest : List Payload)
    (depth : Nat) (tAcc hAcc : List Nat) :
    parseLoop (part :: rest) depth tAcc hAcc =
      parseLoop rest depth (decode_bytes bs) hAcc := by
  rw [parseLoop.eq_def]
  simp [hm, hd, hb]

theorem parseLoop_plain_err {part : Payload} {d : List Nat} {e : Unit}
    (hm : part.mimeType = some "text/plain") (hd : dataKey part = some d)
    (hb : urlsafe_b64decode d = .error e) (rest : List Payload)
    (depth : Nat) (tAcc hAcc : List Nat) :
    parseLoop (part :: rest) depth tAcc hAcc = .error e := by
  rw [parseLoop.eq_def]
  simp [hm, hd, hb]

theorem parseLoop_html {part : Payload} {d bs : List Nat}
    (hm : part.mimeType = some "text/html") (hd : dataKey part = some d)
    (hb : urlsafe_b64decode d = .ok bs) (rest : List Payload)
    (depth : Nat) (tAcc hAcc : List Nat) :
    parseLoop (part :: rest) depth tAcc hAcc =
      parseLoop rest depth tAcc (decode_bytes bs) := by
  rw [parseLoop.eq_def]
  simp [hm, hd, hb]

theorem parseLoop_nested {part : Payload} {cs : List Payload}
    (hm : part.mimeType.getD "" ≠ "text/plain")
    (hm2 : part.mimeType.getD "" ≠ "text/html")
    (hc : part.childParts = some cs) (rest : List Payload)
    (depth : Nat) (tAcc hAcc : List Nat) :
    parseLoop (part :: rest) depth tAcc hAcc =
      parseLoop rest depth
        (pyOrStr tAcc (parse_body part (depth + 1)).1)
        (pyOrStr hAcc (parse_body part (depth + 1)).2) := by
  rw [parseLoop.eq_def]
  simp [hm, hm2, hc, parse_body]

theorem parseCore_noinline {p : Payload} (hi : inlineData p = none)
    (depth : Nat) :
    parseCore p depth = parseLoop (p.childParts.getD []) depth [] [] := by
  rw [parseCore.eq_def]
  simp [hi]

theorem parse_body_core {p : Payload} {depth : Nat}
    (hd : ¬ MAX_MIME_DEPTH < depth) :
    parse_body p depth =
      match parseCore p depth with
      | .ok r => r
      | .error _ => (parsingErrorStr, parsingErrorStr) := by
  simp [parse_body, hd]

theorem parseCore_inline_err {p : Payload} {d : List Nat} {e : Unit}
    (hi : inlineData p = some d) (hb : urlsafe_b64decode d = .error e)
    (depth : Nat) : parseCore p depth = .error e := by
  rw [parseCore.eq_def]
  simp [hi, hb]

/-! ## Claim C8: encoding fallback order -/

/-- C8: byte-to-text decoding tries utf-8, windows-1252 and iso-8859-1 in
that fixed order, taking the first that succeeds; in particular a payload
that is invalid utf-8 but valid windows-1252 decodes via windows-1252,
and the lossy fallback is reached only after iso-8859-1 (which maps every
byte to its own code point). -/
theorem decode_bytes_fallback_order :
    (∀ bs cs, decodeUtf8 bs = some cs → decode_bytes bs = cs) ∧
    (∀ bs cs, decodeUtf8 bs = none → decodeCp1252 bs = some cs →
      decode_bytes bs = cs) ∧
    (∀ bs, decodeUtf8 bs = none → decodeCp1252 bs = none →
      decode_bytes bs = bs) := by
  refine ⟨?_, ?_, ?_⟩
  · intro bs cs h
    simp [decode_bytes, h]
  · intro bs cs h1 h2
    simp [decode_bytes, h1, h2]
  · intro bs h1 h2
    simp [decode_bytes, h1, h2, decodeLatin1]

/-- Witness for C8: the byte 0x93 is invalid utf-8 and decodes to the
left double quotation mark via windows-1252. -/
theorem decode_bytes_fallback_order_witness :
    decodeUtf8 [0x93] = none ∧ decodeCp1252 [0x93] = some [0x201C] ∧
      decode_bytes [0x93] = [0x201C] :=
  ⟨by decide, by decide,
    decode_bytes_fallback_order.2.1 [0x93] [0x201C] (by decide) (by decide)⟩

/-! ## Claim C9: recursion depth cap -/

theorem nestChain_cut :
    ∀ (m d : Nat), 52 ≤ d + m → parse_body (nestChain m) d = ([], []) := by
  intro m
  induction m with
  | zero =>
    intro d h
    have hd : MAX_MIME_DEPTH < d := by
      simp only [MAX_MIME_DEPTH]; omega
    simp [parse_body, hd]
  | succ m ih =>
    intro d h
    by_cases hd : MAX_MIME_DEPTH < d
    · simp [parse_body, hd]
    · rw [parse_body_core hd]
      rw [parseCore_noinline (by simp [nestChain, inlineData, Payload.body])]
      have hcp : (nestChain (m + 1)).childParts.getD [] = [nestChain m] := by
        simp [nestChain, Payload.childParts]
      rw [hcp]
      cases m with
      | zero =>
        exfalso
        simp only [MAX_MIME_DEPTH] at hd
        omega
      | succ m2 =>
        rw [parseLoop_nested (by simp [nestChain, Payload.mimeType])
          (by simp [nestChain, Payload.mimeType])
          (show (nestChain (m2 + 1)).childParts = some [nestChain m2] by
            simp [nestChain, Payload.childParts])]
        rw [ih (d + 1) (by omega)]
        simp [parseLoop_nil, pyOrStr]

/-- C9: any call at depth beyond MAX_MIME_DEPTH returns the empty pair,
and a document whose sibling chain is nested five levels past the cap
still decodes, the over-depth subtree contributing empty strings while
the shallow text part decodes normally. -/
theorem parse_body_depth_overrun :
    (∀ (p : Payload) (d : Nat), MAX_MIME_DEPTH < d →
      parse_body p d = ([], [])) ∧
    parse_body deepDoc 0 = (hiCodes, []) := by
  constructor
  · intro p d hd
    simp [parse_body, hd]
  · rw [parse_body_core (by simp [MAX_MIME_DEPTH])]
    rw [parseCore_noinline (by simp [deepDoc, inlineData, Payload.body])]
    have hcp : deepDoc.childParts.getD [] =
        [plainHiPart, nestChain (MAX_MIME_DEPTH + 5)] := by
      simp [deepDoc, Payload.childParts]
    rw [hcp]
    rw [parseLoop_plain (show plainHiPart.mimeType = some "text/plain" from
      rfl) (show dataKey plainHiPart = some hiB64 from rfl)
      (show urlsafe_b64decode hiB64 = .ok hiCodes from rfl)]
    rw [parseLoop_nested
      (by simp [MAX_MIME_DEPTH, nestChain, Payload.mimeType])
      (by simp [MAX_MIME_DEPTH, nestChain, Payload.mimeType])
      (show (nestChain (MAX_MIME_DEPTH + 5)).childParts =
        some [nestChain (MAX_MIME_DEPTH + 4)] by
        simp [MAX_MIME_DEPTH, nestChain, Payload.childParts])]
    rw [nestChain_cut (MAX_MIME_DEPTH + 5) 1 (by simp [MAX_MIME_DEPTH])]
    rw [parseLoop_nil]
    simp [pyOrStr, hiCodes]
    decide

/-- Witness for C9: a concrete call at depth 51 returns the empty pair. -/
theorem parse_body_depth_overrun_witness :
    parse_body plainHiPart 51 = ([], []) :=
  parse_body_depth_overrun.1 plainHiPart 51 (by simp [MAX_MIME_DEPTH])

/-! ## Claim C1: duplicate text parts among direct children -/

/-- C1 counterexample: in a composite document whose two direct
text/plain children decode to A (first) and B (second), decode returns B,
the decoded payload of the second child, not that of the first. -/
theorem parse_body_first_wins_counterexample :
    parse_body twoTextDoc 0 = ([66], []) ∧
      urlsafe_b64decode aB64 = .ok [65] ∧ decode_bytes [65] = [65] ∧
      (([66], ([] : List Nat)) ≠ (([65], []) : List Nat × List Nat)) := by
  refine ⟨?_, rfl, rfl, by decide⟩
  rw [parse_body_core (by simp [MAX_MIME_DEPTH])]
  rw [parseCore_noinline (by simp [twoTextDoc, inlineData, Payload.body])]
  have hcp : twoTextDoc.childParts.getD [] = [aPart, bPart] := by
    simp [twoTextDoc, Payload.childParts]
  rw [hcp]
  rw [parseLoop_plain (show aPart.mimeType = some "text/plain" from rfl)
    (show dataKey aPart = some aB64 from rfl)
    (show urlsafe_b64decode aB64 = .ok [65] from rfl)]
  rw [parseLoop_plain (show bPart.mimeType = some "text/plain" from rfl)
    (show dataKey bPart = some bB64 from rfl)
    (show urlsafe_b64decode bB64 = .ok [66] from rfl)]
  rw [parseLoop_nil]
  decide

theorem parseLoop_all_plain :
    ∀ (ps : List Payload) (depth : Nat) (tAcc hAcc : List Nat)
      (hne : ps ≠ [])
      (H : ∀ p ∈ ps, p.mimeType = some "text/plain" ∧
        ∃ d bs, dataKey p = some d ∧ urlsafe_b64decode d = .ok bs),
      ∃ d bs, dataKey (ps.getLast hne) = some d ∧
        urlsafe_b64decode d = .ok bs ∧
        parseLoop ps depth tAcc hAcc = .ok (decode_bytes bs, hAcc) := by
  intro ps
  induction ps with
  | nil => intro _ _ _ hne _; exact absurd rfl hne
  | cons p rest ih =>
    intro depth tAcc hAcc hne H
    obtain ⟨hm, d, bs, hd, hb⟩ := H p (List.mem_cons_self p rest)
    cases rest with
    | nil =>
      refine ⟨d, bs, hd, hb, ?_⟩
      rw [parseLoop_plain hm hd hb, parseLoop_nil]
    | cons q rest2 =>
      have hne2 : q :: rest2 ≠ [] := by simp
      obtain ⟨d2, bs2, hd2, hb2, hloop⟩ :=
        ih depth (decode_bytes bs) hAcc hne2
          (fun x hx => H x (List.mem_cons_of_mem p hx))
      refine ⟨d2, bs2, ?_, hb2, ?_⟩
      · rwa [List.getLast_cons hne2]
      · rw [parseLoop_plain hm hd hb, hloop]

theorem parseLoop_all_html :
    ∀ (ps : List Payload) (depth : Nat) (tAcc hAcc : List Nat)
      (hne : ps ≠ [])
      (H : ∀ p ∈ ps, p.mimeType = some "text/html" ∧
        ∃ d bs, dataKey p = some d ∧ urlsafe_b64decode d = .ok bs),
      ∃ d bs, dataKey (ps.getLast hne) = some d ∧
        urlsafe_b64decode d = .ok bs ∧
        parseLoop ps depth tAcc hAcc = .ok (tAcc, decode_bytes bs) := by
  intro ps
  induction ps with
  | nil => intro _ _ _ hne _; exact absurd rfl hne
  | cons p rest ih =>
    intro depth tAcc hAcc hne H
    obtain ⟨hm, d, bs, hd, hb⟩ := H p (List.mem_cons_self p rest)
    cases rest with
    | nil =>
      refine ⟨d, bs, hd, hb, ?_⟩
      rw [parseLoop_html hm hd hb, parseLoop_nil]
    | cons q rest2 =>
      have hne2 : q :: rest2 ≠ [] := by simp
      obtain ⟨d2, bs2, hd2, hb2, hloop⟩ :=
        ih depth tAcc (decode_bytes bs) hne2
          (fun x hx => H x (List.mem_cons_of_mem p hx))
      refine ⟨d2, bs2, ?_, hb2, ?_⟩
      · rwa [List.getLast_cons hne2]
      · rw [parseLoop_html hm hd hb, hloop]

/-- C1 amended: among the direct children of a composite document, the
LAST text/plain child with an inline payload determines the text result
(a later duplicate overwrites an earlier one), and likewise the LAST
text/html child determines the html result; the first-one-wins rule
applies only to results filled in from recursing into composite
children. -/
theorem parse_body_last_wins :
    (∀ (mt : Option String) (ps : List Payload) (hne : ps ≠ [])
      (_ : ∀ p ∈ ps, p.mimeType = some "text/plain" ∧
        ∃ d bs, dataKey p = some d ∧ urlsafe_b64decode d = .ok bs),
      ∃ d bs, dataKey (ps.getLast hne) = some d ∧
        urlsafe_b64decode d = .ok bs ∧
        parse_body (.mk mt none (some ps)) 0 = (decode_bytes bs, [])) ∧
    (∀ (mt : Option String) (ps : List Payload) (hne : ps ≠ [])
      (_ : ∀ p ∈ ps, p.mimeType = some "text/html" ∧
        ∃ d bs, dataKey p = some d ∧ urlsafe_b64decode d = .ok bs),
      ∃ d bs, dataKey (ps.getLast hne) = some d ∧
        urlsafe_b64decode d = .ok bs ∧
        parse_body (.mk mt none (some ps)) 0 = ([], decode_bytes bs)) := by
  constructor
  · intro mt ps hne H
    obtain ⟨d, bs, hd, hb, hloop⟩ := parseLoop_all_plain ps 0 [] [] hne H
    refine ⟨d, bs, hd, hb, ?_⟩
    rw [parse_body_core (by simp [MAX_MIME_DEPTH])]
    rw [parseCore_noinline (by simp [inlineData, Payload.body])]
    simp only [Payload.childParts, Option.getD_some]
    rw [hloop]
  · intro mt ps hne H
    obtain ⟨d, bs, hd, hb, hloop⟩ := parseLoop_all_html ps 0 [] [] hne H
    refine ⟨d, bs, hd, hb, ?_⟩
    rw [parse_body_core (by simp [MAX_MIME_DEPTH])]
    rw [parseCore_noinline (by simp [inlineData, Payload.body])]
    simp only [Payload.childParts, Option.getD_some]
    rw [hloop]

/-- Witness for C1 amended: on the two-text document, the last child's
payload B is returned. -/
theorem parse_body_last_wins_witness :
    ∃ d bs, dataKey ([aPart, bPart].getLast (by simp)) = some d ∧
      urlsafe_b64decode d = .ok bs ∧
      parse_body (.mk (some "multipart/mixed") none (some [aPart, bPart]))
        0 = (decode_bytes bs, []) :=
  parse_body_last_wins.1 (some "multipart/mixed") [aPart, bPart] (by simp)
    (by
      intro p hp
      simp only [List.mem_cons, List.not_mem_nil, or_false] at hp
      rcases hp with h | h <;> subst h
      · exact ⟨rfl, aB64, [65], rfl, rfl⟩
      · exact ⟨rfl, bB64, [66], rfl, rfl⟩)

/-! ## Claim C4: parse failures degrade to the sentinel pair -/

/-- C4: decode is a total function into pairs; whenever the try-block
raises (a structural parsing failure such as invalid base64), the result
is the sentinel pair marking both fields as parsing errors, and on a
concrete document with undecodable inline data that is exactly what comes
back. -/
theorem parse_body_sentinel :
    (∀ (p : Payload) (d : Nat), ¬ MAX_MIME_DEPTH < d →
      parseCore p d = .error () →
      parse_body p d = (parsingErrorStr, parsingErrorStr)) ∧
    parse_body badB64Doc 0 = (parsingErrorStr, parsingErrorStr) := by
  constructor
  · intro p d hd hc
    rw [parse_body_core hd, hc]
  · rw [parse_body_core (by simp [MAX_MIME_DEPTH])]
    rw [parseCore_inline_err (show inlineData badB64Doc = some [81] from
      rfl) (show urlsafe_b64decode [81] = .error () from rfl)]

/-- Witness for C4: the sentinel conclusion applied to the concrete
malformed document. -/
theorem parse_body_sentinel_witness :
    parse_body badB64Doc 0 = (parsingErrorStr, parsingErrorStr) :=
  parse_body_sentinel.1 badB64Doc 0 (by simp [MAX_MIME_DEPTH])
    (parseCore_inline_err (show inlineData badB64Doc = some [81] from rfl)
      (show urlsafe_b64decode [81] = .error () from rfl) 0)

/-! ## Step lemmas for the pagination loop -/

section FetchLemmas

variable {ex : Nat → ListParams → Except HttpErr Page}
variable {query : Option String} {maxResults : Option Nat}
variable {seen : List String} {acc : List Msg}
variable {pageToken : Option String} {pageCount : Nat}
variable {page : Page} {e : HttpErr}

theorem fetchLoop_cap (hc : MAX_PAGES ≤ pageCount) :
    fetchLoop ex query maxResults seen acc pageToken pageCount = .ok acc := by
  rw [fetchLoop.eq_def]
  simp [hc]

theorem fetchLoop_err (hc : ¬ MAX_PAGES ≤ pageCount)
    (hp : ex pageCount (mkParams maxResults query pageToken) = .error e) :
    fetchLoop ex query maxResults seen acc pageToken pageCount =
      .error e := by
  rw [fetchLoop.eq_def]
  simp [hc, hp]

theorem fetchLoop_mem (hc : ¬ MAX_PAGES ≤ pageCount)
    (hp : ex pageCount (mkParams maxResults query pageToken) = .ok page)
    (hm : MAX_MESSAGES_IN_MEMORY ≤ acc.length + page.messages.length) :
    fetchLoop ex query maxResults seen acc pageToken pageCount =
      .ok ((acc ++ page.messages).take MAX_MESSAGES_IN_MEMORY) := by
  rw [fetchLoop.eq_def]
  simp [hc, hp, hm]

theorem fetchLoop_maxr (hc : ¬ MAX_PAGES ≤ pageCount)
    (hp : ex pageCount (mkParams maxResults query pageToken) = .ok page)
    (hm : ¬ MAX_MESSAGES_IN_MEMORY ≤ acc.length + page.messages.length)
    (hr : maxResultsHit maxResults (acc.length + page.messages.length) = true) :
    fetchLoop ex query maxResults seen acc pageToken pageCount =
      .ok ((acc ++ page.messages).take (maxResults.getD 0)) := by
  rw [fetchLoop.eq_def]
  simp [hc, hp, hm, hr]

theorem fetchLoop_lastPage (hc : ¬ MAX_PAGES ≤ pageCount)
    (hp : ex pageCount (mkParams maxResults query pageToken) = .ok page)
    (hm : ¬ MAX_MESSAGES_IN_MEMORY ≤ acc.length + page.messages.length)
    (hr : maxResultsHit maxResults (acc.length + page.messages.length) = false)
    (ht : page.nextPageToken = none) :
    fetchLoop ex query maxResults seen acc pageToken pageCount =
      .ok (acc ++ page.messages) := by
  rw [fetchLoop.eq_def]
  simp [hc, hp, hm, hr, ht]

theorem fetchLoop_emptyTok (hc : ¬ MAX_PAGES ≤ pageCount)
    (hp : ex pageCount (mkParams maxResults query pageToken) = .ok page)
    (hm : ¬ MAX_MESSAGES_IN_MEMORY ≤ acc.length + page.messages.length)
    (hr : maxResultsHit maxResults (acc.length + page.messages.length) = false)
    (ht : page.nextPageToken = some "") :
    fetchLoop ex query maxResults seen acc pageToken pageCount =
      .ok (acc ++ page.messages) := by
  rw [fetchLoop.eq_def]
  simp [hc, hp, hm, hr, ht]

theorem fetchLoop_seenTok {t : String} (hc : ¬ MAX_PAGES ≤ pageCount)
    (hp : ex pageCount (mkParams maxResults query pageToken) = .ok page)
    (hm : ¬ MAX_MESSAGES_IN_MEMORY ≤ acc.length + page.messages.length)
    (hr : maxResultsHit maxResults (acc.length + page.messages.length) = false)
    (ht : page.nextPageToken = some t) (hne : t ≠ "") (hs : t ∈ seen) :
    fetchLoop ex query maxResults seen acc pageToken pageCount =
      .ok (acc ++ page.messages) := by
  rw [fetchLoop.eq_def]
  simp [hc, hp, hm, hr, ht, hne, hs]

theorem fetchLoop_cont {t : String} (hc : ¬ MAX_PAGES ≤ pageCount)
    (hp : ex pageCount (mkParams maxResults query pageToken) = .ok page)
    (hm : ¬ MAX_MESSAGES_IN_MEMORY ≤ acc.length + page.messages.length)
    (hr : maxResultsHit maxResults (acc.length + page.messages.length) = false)
    (ht : page.nextPageToken = some t) (hne : t ≠ "") (hs : ¬ t ∈ seen) :
    fetchLoop ex query maxResults seen acc pageToken pageCount =
      fetchLoop ex query maxResults (t :: seen) (acc ++ page.messages)
        (some t) (pageCount + 1) := by
  rw [fetchLoop.eq_def]
  simp [hc, hp, hm, hr, ht, hne, hs]

end FetchLemmas

/-! ## Claim C2: listAll and thrown errors -/

/-- C2 counterexample: when the executor surfaces an HTTP 404 error on the
first list request, listAll propagates it as an exception instead of
returning a list. -/
theorem listAll_throws_counterexample :
    fetch_all_messages failServer none none = .error err404 := by
  rw [fetch_all_messages, fetchLoop.eq_def]
  simp [MAX_PAGES, failServer]

theorem fetchLoop_ok_total
    (ex : Nat → ListParams → Except HttpErr Page) (query : Option String)
    (maxResults : Option Nat) (hex : ∀ n p, ∃ page, ex n p = .ok page) :
    ∀ (f : Nat) (seen : List String) (acc : List Msg)
      (tok : Option String) (pc : Nat), MAX_PAGES - pc ≤ f →
      ∃ l, fetchLoop ex query maxResults seen acc tok pc = .ok l := by
  intro f
  induction f with
  | zero =>
    intro seen acc tok pc hf
    exact ⟨acc, fetchLoop_cap (by omega)⟩
  | succ f ih =>
    intro seen acc tok pc hf
    by_cases hc : MAX_PAGES ≤ pc
    · exact ⟨acc, fetchLoop_cap hc⟩
    · obtain ⟨page, hp⟩ := hex pc (mkParams maxResults query tok)
      by_cases hm : MAX_MESSAGES_IN_MEMORY ≤ acc.length + page.messages.length
      · exact ⟨_, fetchLoop_mem hc hp hm⟩
      · by_cases hr :
          maxResultsHit maxResults (acc.length + page.messages.length) = true
        · exact ⟨_, fetchLoop_maxr hc hp hm hr⟩
        · have hr2 : maxResultsHit maxResults
              (acc.length + page.messages.length) = false := by simpa using hr
          cases ht : page.nextPageToken with
          | none => exact ⟨_, fetchLoop_lastPage hc hp hm hr2 ht⟩
          | some t =>
            by_cases hte : t = ""
            · subst hte
              exact ⟨_, fetchLoop_emptyTok hc hp hm hr2 ht⟩
            · by_cases hts : t ∈ seen
              · exact ⟨_, fetchLoop_seenTok hc hp hm hr2 ht hte hts⟩
              · obtain ⟨l, hl⟩ := ih (t :: seen) (acc ++ page.messages)
                  (some t) (pc + 1) (by omega)
                exact ⟨l, (fetchLoop_cont hc hp hm hr2 ht hte hts).trans hl⟩

/-- C2 amended: as long as every executed list request succeeds, listAll
returns a list and never throws — every safety-bound exit (page cap,
memory cap, repeated token, missing token) degrades to a partial result.
An HTTP error surfaced by the request executor, however, propagates to
the caller as an exception. -/
theorem listAll_ok_of_server_ok
    (ex : Nat → ListParams → Except HttpErr Page) (query : Option String)
    (maxResults : Option Nat)
    (hex : ∀ n p, ∃ page, ex n p = .ok page) :
    ∃ l, fetch_all_messages ex query maxResults = .ok l := by
  rw [fetch_all_messages]
  exact fetchLoop_ok_total ex query maxResults hex MAX_PAGES [] [] none 0
    (by omega)

/-- Witness for C2 amended: a server of empty successful pages yields a
list. -/
theorem listAll_ok_of_server_ok_witness :
    ∃ l, fetch_all_messages emptyServer none none = .ok l :=
  listAll_ok_of_server_ok emptyServer none none
    (fun _ _ => ⟨⟨[], none⟩, rfl⟩)

/-! ## Claim C5: maxResults truncation -/

/-- C5 counterexample: with maxResults = 0 and a server holding one stub
(more than zero), listAll returns that one stub rather than an empty
list — a zero limit is falsy in the source and disables truncation. -/
theorem listAll_maxResults_counterexample :
    fetch_all_messages oneMsgServer none (some 0) = .ok [m0] ∧
      ([m0] : List Msg).length ≠ 0 := by
  constructor
  · rw [fetch_all_messages, fetchLoop.eq_def]
    simp [MAX_PAGES, oneMsgServer, MAX_MESSAGES_IN_MEMORY, maxResultsHit]
  · simp

theorem fetchLoop_onePer :
    ∀ (f : Nat) (msgs : List Msg) (k n : Nat) (seen : List String)
      (tok : Option String),
      k - n ≤ f → n < k → k ≤ MAX_PAGES → k < msgs.length →
      (∀ s ∈ seen, s.length ≤ n) →
      fetchLoop (onePerServer msgs) none (some k) seen (msgs.take n) tok n =
        .ok (msgs.take k) := by
  intro f
  induction f with
  | zero =>
    intro msgs k n seen tok hf hn hk hlen hseen
    omega
  | succ f ih =>
    intro msgs k n seen tok hf hn hk hlen hseen
    have hnm : n < msgs.length := by omega
    have hc : ¬ MAX_PAGES ≤ n := by
      simp only [MAX_PAGES] at hk ⊢; omega
    have hp : onePerServer msgs n (mkParams (some k) none tok) =
        .ok ⟨[msgs.getD n m0],
          if n + 1 < msgs.length then some (tokN n) else none⟩ := rfl
    have hlt : (msgs.take n).length = n := by
      rw [List.length_take]; omega
    have hacc : msgs.take n ++ [msgs.getD n m0] = msgs.take (n + 1) := by
      have h1 : msgs[n]? = some msgs[n] := List.getElem?_eq_getElem hnm
      rw [List.take_succ, h1]
      simp [List.getD_eq_getElem?_getD, h1]
    have hm : ¬ MAX_MESSAGES_IN_MEMORY ≤
        (msgs.take n).length + ([msgs.getD n m0] : List Msg).length := by
      simp only [MAX_MESSAGES_IN_MEMORY, MAX_PAGES] at hk ⊢
      simp [hlt]; omega
    by_cases hkn : k ≤ n + 1
    · have hr : maxResultsHit (some k)
          ((msgs.take n).length + ([msgs.getD n m0] : List Msg).length) =
          true := by
        simp [maxResultsHit, hlt]; omega
      rw [fetchLoop_maxr hc hp hm hr, hacc]
      have : (msgs.take (n + 1)).take ((some k).getD 0) = msgs.take k := by
        simp [List.take_take]; omega
      rw [this]
    · have hr : maxResultsHit (some k)
          ((msgs.take n).length + ([msgs.getD n m0] : List Msg).length) =
          false := by
        simp [maxResultsHit, hlt]; omega
      have ht : (⟨[msgs.getD n m0],
          if n + 1 < msgs.length then some (tokN n) else none⟩ :
            Page).nextPageToken = some (tokN n) := by
        simp only
        rw [if_pos (by omega)]
      have hne : tokN n ≠ "" := by
        simp [tokN, String.ext_iff]
      have hts : tokN n ∉ seen := by
        intro hmem
        have := hseen _ hmem
        simp [tokN, String.length] at this
      rw [fetchLoop_cont hc hp hm hr ht hne hts, hacc]
      exact ih msgs k (n + 1) (tokN n :: seen) (some (tokN n)) (by omega)
        (by omega) hk hlen
        (by
          intro s hs
          rcases List.mem_cons.mp hs with h | h
          · subst h; simp [tokN, String.length]
          · exact Nat.le_succ_of_le (hseen s h))

/-- C5 amended: for every 1 <= k reachable within the page cap and a
well-behaved server holding more than k results, listAll returns exactly
k stubs; maxResults = 0, being falsy, disables truncation instead of
returning zero stubs. -/
theorem listAll_exact_k (msgs : List Msg) (k : Nat) (h1 : 1 ≤ k)
    (hk : k ≤ MAX_PAGES) (hlen : k < msgs.length) :
    fetch_all_messages (onePerServer msgs) none (some k) =
      .ok (msgs.take k) ∧ (msgs.take k).length = k := by
  constructor
  · rw [fetch_all_messages]
    have h := fetchLoop_onePer k msgs k 0 [] none (by omega) (by omega) hk
      hlen (by simp)
    simpa using h
  · rw [List.length_take]; omega

/-- Witness for C5 amended: two stubs on the server, limit one, one stub
back. -/
theorem listAll_exact_k_witness :
    fetch_all_messages (onePerServer [m0, m0]) none (some 1) =
      .ok ([m0, m0].take 1) ∧ ([m0, m0].take 1).length = 1 :=
  listAll_exact_k [m0, m0] 1 (by norm_num) (by simp [MAX_PAGES])
    (by norm_num)

/-! ## Claim C6: termination bound and cycle detection -/

theorem fetchLoop_agree :
    ∀ (f : Nat) (e1 e2 : Nat → ListParams → Except HttpErr Page)
      (query : Option String) (maxResults : Option Nat)
      (seen : List String) (acc : List Msg) (tok : Option String)
      (pc : Nat),
      MAX_PAGES - pc ≤ f →
      (∀ n p, n < MAX_PAGES → e1 n p = e2 n p) →
      fetchLoop e1 query maxResults seen acc tok pc =
        fetchLoop e2 query maxResults seen acc tok pc := by
  intro f
  induction f with
  | zero =>
    intro e1 e2 q mr seen acc tok pc hf hag
    rw [fetchLoop_cap (by omega), fetchLoop_cap (by omega)]
  | succ f ih =>
    intro e1 e2 q mr seen acc tok pc hf hag
    by_cases hc : MAX_PAGES ≤ pc
    · rw [fetchLoop_cap hc, fetchLoop_cap hc]
    · have he : e1 pc (mkParams mr q tok) = e2 pc (mkParams mr q tok) :=
        hag pc _ (by omega)
      cases hp2 : e2 pc (mkParams mr q tok) with
      | error e =>
        rw [fetchLoop_err hc (he.trans hp2), fetchLoop_err hc hp2]
      | ok page =>
        have hp1 := he.trans hp2
        by_cases hm :
          MAX_MESSAGES_IN_MEMORY ≤ acc.length + page.messages.length
        · rw [fetchLoop_mem hc hp1 hm, fetchLoop_mem hc hp2 hm]
        · by_cases hr :
            maxResultsHit mr (acc.length + page.messages.length) = true
          · rw [fetchLoop_maxr hc hp1 hm hr, fetchLoop_maxr hc hp2 hm hr]
          · have hr2 : maxResultsHit mr
                (acc.length + page.messages.length) = false := by
              simpa using hr
            cases ht : page.nextPageToken with
            | none =>
              rw [fetchLoop_lastPage hc hp1 hm hr2 ht,
                fetchLoop_lastPage hc hp2 hm hr2 ht]
            | some t =>
              by_cases hte : t = ""
              · subst hte
                rw [fetchLoop_emptyTok hc hp1 hm hr2 ht,
                  fetchLoop_emptyTok hc hp2 hm hr2 ht]
              · by_cases hts : t ∈ seen
                · rw [fetchLoop_seenTok hc hp1 hm hr2 ht hte hts,
                    fetchLoop_seenTok hc hp2 hm hr2 ht hte hts]
                · rw [fetchLoop_cont hc hp1 hm hr2 ht hte hts,
                    fetchLoop_cont hc hp2 hm hr2 ht hte hts]
                  exact ih e1 e2 q mr (t :: seen) (acc ++ page.messages)
                    (some t) (pc + 1) (by omega) hag

/-- C6: listAll consults the server only on call indices below MAX_PAGES
(two servers agreeing there produce the same result, so the loop never
runs unboundedly), and when a page's continuation token repeats an
already-seen token while no earlier stop condition fires, the loop stops
and returns exactly the stubs accumulated through that page. -/
theorem listAll_cycle_detection :
    (∀ (e1 e2 : Nat → ListParams → Except HttpErr Page)
        (query : Option String) (maxResults : Option Nat),
      (∀ n p, n < MAX_PAGES → e1 n p = e2 n p) →
      fetch_all_messages e1 query maxResults =
        fetch_all_messages e2 query maxResults) ∧
    (∀ (ex : Nat → ListParams → Except HttpErr Page)
        (query : Option String) (seen : List String) (acc : List Msg)
        (tok : Option String) (pc : Nat) (page : Page) (t : String),
      ¬ MAX_PAGES ≤ pc →
      ex pc (mkParams none query tok) = .ok page →
      ¬ MAX_MESSAGES_IN_MEMORY ≤ acc.length + page.messages.length →
      page.nextPageToken = some t → t ≠ "" → t ∈ seen →
      fetchLoop ex query none seen acc tok pc =
        .ok (acc ++ page.messages)) := by
  constructor
  · intro e1 e2 q mr hag
    rw [fetch_all_messages, fetch_all_messages]
    exact fetchLoop_agree MAX_PAGES e1 e2 q mr [] [] none 0 (by omega) hag
  · intro ex q seen acc tok pc page t hc hp hm ht hte hts
    exact fetchLoop_seenTok hc hp hm (by simp [maxResultsHit]) ht hte hts

/-- Witness for C6: the cycling server is stopped at page 2, where its
token repeats the token of page 0, returning the three stubs gathered. -/
theorem listAll_cycle_detection_witness :
    fetchLoop cycleServer none none [tokN 1, tokN 0] [m0, m0]
      (some (tokN 1)) 2 = .ok [m0, m0, m0] := by
  have h := listAll_cycle_detection.2 cycleServer none [tokN 1, tokN 0]
    [m0, m0] (some (tokN 1)) 2 ⟨[m0], some (tokN 0)⟩ (tokN 0)
    (by simp [MAX_PAGES]) rfl (by simp [MAX_MESSAGES_IN_MEMORY]) rfl
    (by simp [tokN, String.ext_iff])
    (List.mem_cons_of_mem _ (List.mem_cons_self _ _))
  simpa using h

/-! ## Claim C10: the in-memory ceiling -/

theorem fetchLoop_mem_bound :
    ∀ (f : Nat) (ex : Nat → ListParams → Except HttpErr Page)
      (query : Option String) (maxResults : Option Nat)
      (seen : List String) (acc : List Msg) (tok : Option String)
      (pc : Nat) (l : List Msg),
      MAX_PAGES - pc ≤ f → acc.length ≤ MAX_MESSAGES_IN_MEMORY →
      fetchLoop ex query maxResults seen acc tok pc = .ok l →
      l.length ≤ MAX_MESSAGES_IN_MEMORY := by
  intro f
  induction f with
  | zero =>
    intro ex q mr seen acc tok pc l hf ha hl
    rw [fetchLoop_cap (by omega)] at hl
    obtain rfl : acc = l := by simpa using hl
    exact ha
  | succ f ih =>
    intro ex q mr seen acc tok pc l hf ha hl
    by_cases hc : MAX_PAGES ≤ pc
    · rw [fetchLoop_cap hc] at hl
      obtain rfl : acc = l := by simpa using hl
      exact ha
    · cases hp : ex pc (mkParams mr q tok) with
      | error e =>
        rw [fetchLoop_err hc hp] at hl
        exact absurd hl (by simp)
      | ok page =>
        by_cases hm :
          MAX_MESSAGES_IN_MEMORY ≤ acc.length + page.messages.length
        · rw [fetchLoop_mem hc hp hm] at hl
          obtain rfl : (acc ++ page.messages).take MAX_MESSAGES_IN_MEMORY
              = l := by simpa using hl
          simp [List.length_take]
        · by_cases hr :
            maxResultsHit mr (acc.length + page.messages.length) = true
          · rw [fetchLoop_maxr hc hp hm hr] at hl
            obtain rfl : (acc ++ page.messages).take (mr.getD 0) = l := by
              simpa using hl
            simp only [List.length_take, List.length_append]
            omega
          · have hr2 : maxResultsHit mr
                (acc.length + page.messages.length) = false := by
              simpa using hr
            cases ht : page.nextPageToken with
            | none =>
              rw [fetchLoop_lastPage hc hp hm hr2 ht] at hl
              obtain rfl : acc ++ page.messages = l := by simpa using hl
              simp only [List.length_append]
              omega
            | some t =>
              by_cases hte : t = ""
              · subst hte
                rw [fetchLoop_emptyTok hc hp hm hr2 ht] at hl
                obtain rfl : acc ++ page.messages = l := by simpa using hl
                simp only [List.length_append]
                omega
              · by_cases hts : t ∈ seen
                · rw [fetchLoop_seenTok hc hp hm hr2 ht hte hts] at hl
                  obtain rfl : acc ++ page.messages = l := by
                    simpa using hl
                  simp only [List.length_append]
                  omega
                · rw [fetchLoop_cont hc hp hm hr2 ht hte hts] at hl
                  exact ih ex q mr (t :: seen) (acc ++ page.messages)
                    (some t) (pc + 1) l (by omega)
                    (by simp only [List.length_append]; omega) hl

/-- C10: every list listAll returns holds at most MAX_MESSAGES_IN_MEMORY
stubs, whatever the query and maxResults (including none, or a value
above the ceiling), because the in-memory ceiling check runs before the
maxResults truncation on each page; concretely, with maxResults = 10200
and a page of 10500 stubs, the result is truncated to the ceiling of
10000, not to 10200. -/
theorem listAll_memory_ceiling :
    (∀ (ex : Nat → ListParams → Except HttpErr Page)
        (query : Option String) (maxResults : Option Nat) (l : List Msg),
      fetch_all_messages ex query maxResults = .ok l →
      l.length ≤ MAX_MESSAGES_IN_MEMORY) ∧
    (∃ l, fetch_all_messages bigServer none (some 10200) = .ok l ∧
      l.length = MAX_MESSAGES_IN_MEMORY ∧ l.length ≠ 10200) := by
  constructor
  · intro ex q mr l hl
    rw [fetch_all_messages] at hl
    exact fetchLoop_mem_bound MAX_PAGES ex q mr [] [] none 0 l (by omega)
      (by simp) hl
  · refine ⟨(List.replicate 10500 m0).take MAX_MESSAGES_IN_MEMORY, ?_,
      ?_, ?_⟩
    · have h1 : ¬ MAX_PAGES ≤ 0 := by simp [MAX_PAGES]
      have h2 : bigServer 0 (mkParams (some 10200) none none) =
          .ok ⟨List.replicate 10500 m0, none⟩ := rfl
      have h3 : MAX_MESSAGES_IN_MEMORY ≤ ([] : List Msg).length +
          (⟨List.replicate 10500 m0, none⟩ : Page).messages.length := by
        simp only [MAX_MESSAGES_IN_MEMORY, List.length_nil,
          List.length_replicate]
        omega
      have h4 := @fetchLoop_mem bigServer none (some 10200) [] [] none 0
        ⟨List.replicate 10500 m0, none⟩ h1 h2 h3
      rw [fetch_all_messages]
      exact h4
    · simp only [List.length_take, List.length_replicate,
        MAX_MESSAGES_IN_MEMORY]
      omega
    · simp only [List.length_take, List.length_replicate,
        MAX_MESSAGES_IN_MEMORY]
      omega

/-- Witness for C10: the bound applied to a concrete one-page run. -/
theorem listAll_memory_ceiling_witness :
    ([m0] : List Msg).length ≤ MAX_MESSAGES_IN_MEMORY :=
  listAll_memory_ceiling.1 oneMsgServer none (some 0) [m0]
    (by
      rw [fetch_all_messages, fetchLoop.eq_def]
      simp [MAX_PAGES, oneMsgServer, MAX_MESSAGES_IN_MEMORY, maxResultsHit])

/-! ## Step lemmas for the retry loop -/

section ExecLemmas

variable {α : Type} {attempt : Nat → Except HttpErr α} {maxR i : Nat}
variable {lastErr : Option HttpErr} {v : α} {e : HttpErr}

theorem execFrom_ok (hi : ¬ maxR + 1 ≤ i) (ha : attempt i = .ok v) :
    execFrom attempt maxR i lastErr = .ok v := by
  rw [execFrom.eq_def]
  simp [hi, ha]

theorem execFrom_retry (hi : ¬ maxR + 1 ≤ i) (ha : attempt i = .error e)
    (hr : retryableStatus e.status = true) (hlt : i < maxR) :
    execFrom attempt maxR i lastErr =
      execFrom attempt maxR (i + 1) (some e) := by
  rw [execFrom.eq_def]
  simp [hi, ha, hr, hlt]

theorem execFrom_exhaust (hi : ¬ maxR + 1 ≤ i)
    (ha : attempt i = .error e) (hr : retryableStatus e.status = true)
    (hge : ¬ i < maxR) :
    execFrom attempt maxR i lastErr = .error (.http e) := by
  rw [execFrom.eq_def]
  simp [hi, ha, hr, hge]

theorem execFrom_terminal (hi : ¬ maxR + 1 ≤ i)
    (ha : attempt i = .error e) (hr : retryableStatus e.status = false) :
    execFrom attempt maxR i lastErr = .error (.http e) := by
  rw [execFrom.eq_def]
  simp [hi, ha, hr]

theorem execAttemptsFrom_ok (hi : ¬ maxR + 1 ≤ i)
    (ha : attempt i = .ok v) : execAttemptsFrom attempt maxR i = 1 := by
  rw [execAttemptsFrom.eq_def]
  simp [hi, ha]

theorem execAttemptsFrom_retry (hi : ¬ maxR + 1 ≤ i)
    (ha : attempt i = .error e) (hr : retryableStatus e.status = true)
    (hlt : i < maxR) :
    execAttemptsFrom attempt maxR i =
      1 + execAttemptsFrom attempt maxR (i + 1) := by
  rw [execAttemptsFrom.eq_def]
  simp [hi, ha, hr, hlt]

theorem execAttemptsFrom_stop (hi : ¬ maxR + 1 ≤ i)
    (ha : attempt i = .error e) (hge : ¬ i < maxR) :
    execAttemptsFrom attempt maxR i = 1 := by
  rw [execAttemptsFrom.eq_def]
  simp [hi, ha, hge]

end ExecLemmas

theorem execFrom_success_run (α : Type) :
    ∀ (gap : Nat) (attempt : Nat → Except HttpErr α) (maxR k i : Nat)
      (lastErr : Option HttpErr) (v : α),
      k - i ≤ gap → i ≤ k → k ≤ maxR →
      (∀ j, i ≤ j → j < k →
        ∃ e, attempt j = .error e ∧ retryableStatus e.status = true) →
      attempt k = .ok v →
      execFrom attempt maxR i lastErr = .ok v ∧
        execAttemptsFrom attempt maxR i = k + 1 - i := by
  intro gap
  induction gap with
  | zero =>
    intro attempt maxR k i lastErr v hgap hik hk hfail hok
    obtain rfl : i = k := by omega
    have hi : ¬ maxR + 1 ≤ i := by omega
    exact ⟨execFrom_ok hi hok, by rw [execAttemptsFrom_ok hi hok]; omega⟩
  | succ gap ih =>
    intro attempt maxR k i lastErr v hgap hik hk hfail hok
    by_cases hik2 : i = k
    · subst hik2
      have hi : ¬ maxR + 1 ≤ i := by omega
      exact ⟨execFrom_ok hi hok, by rw [execAttemptsFrom_ok hi hok]; omega⟩
    · have hi : ¬ maxR + 1 ≤ i := by omega
      obtain ⟨e, hae, hre⟩ := hfail i (le_refl i) (by omega)
      have hlt : i < maxR := by omega
      obtain ⟨h1, h2⟩ := ih attempt maxR k (i + 1) (some e) v (by omega)
        (by omega) hk (fun j hj1 hj2 => hfail j (by omega) hj2) hok
      refine ⟨(execFrom_retry hi hae hre hlt).trans h1, ?_⟩
      rw [execAttemptsFrom_retry hi hae hre hlt, h2]
      omega

theorem execFrom_allfail_run (α : Type) :
    ∀ (gap : Nat) (attempt : Nat → Except HttpErr α) (maxR i : Nat)
      (lastErr : Option HttpErr) (errF : Nat → HttpErr),
      maxR - i ≤ gap → i ≤ maxR →
      (∀ j, i ≤ j → j ≤ maxR → attempt j = .error (errF j) ∧
        retryableStatus (errF j).status = true) →
      execFrom attempt maxR i lastErr = .error (.http (errF maxR)) ∧
        execAttemptsFrom attempt maxR i = maxR + 1 - i := by
  intro gap
  induction gap with
  | zero =>
    intro attempt maxR i lastErr errF hgap hik hfail
    obtain rfl : i = maxR := by omega
    have hi : ¬ i + 1 ≤ i := by omega
    obtain ⟨hae, hre⟩ := hfail i (le_refl i) (le_refl i)
    refine ⟨execFrom_exhaust hi hae hre (by omega), ?_⟩
    rw [execAttemptsFrom_stop hi hae (by omega)]
    omega
  | succ gap ih =>
    intro attempt maxR i lastErr errF hgap hik hfail
    by_cases him : i = maxR
    · subst him
      have hi : ¬ i + 1 ≤ i := by omega
      obtain ⟨hae, hre⟩ := hfail i (le_refl i) (le_refl i)
      refine ⟨execFrom_exhaust hi hae hre (by omega), ?_⟩
      rw [execAttemptsFrom_stop hi hae (by omega)]
      omega
    · have hi : ¬ maxR + 1 ≤ i := by omega
      obtain ⟨hae, hre⟩ := hfail i (le_refl i) (by omega)
      have hlt : i < maxR := by omega
      obtain ⟨h1, h2⟩ := ih attempt maxR (i + 1) (some (errF i)) errF
        (by omega) (by omega)
        (fun j hj1 hj2 => hfail j (by omega) hj2)
      refine ⟨(execFrom_retry hi hae hre hlt).trans h1, ?_⟩
      rw [execAttemptsFrom_retry hi hae hre hlt, h2]
      omega

/-! ## Claim C3: retry budget -/

/-- C3: for every retry budget maxR and every attempt sequence with k
retryable failures (status in the retryable set) followed by a success,
k within the budget, the retry loop returns the success payload having
invoked the callable exactly k+1 times; when every attempt within the
budget fails retryably, it re-raises the last error after exactly
maxR+1 invocations.  execute_gmail_request and its attempt count are the
loop at the configured budget starting from attempt zero. -/
theorem execute_retry_budget :
    (∀ (α : Type) (maxR k : Nat) (attempt : Nat → Except HttpErr α)
        (v : α),
      k ≤ maxR →
      (∀ j, j < k →
        ∃ e, attempt j = .error e ∧ retryableStatus e.status = true) →
      attempt k = .ok v →
      execFrom attempt maxR 0 none = .ok v ∧
        execAttemptsFrom attempt maxR 0 = k + 1) ∧
    (∀ (α : Type) (maxR : Nat) (attempt : Nat → Except HttpErr α)
        (errF : Nat → HttpErr),
      (∀ j, j ≤ maxR → attempt j = .error (errF j) ∧
        retryableStatus (errF j).status = true) →
      execFrom attempt maxR 0 none = .error (.http (errF maxR)) ∧
        execAttemptsFrom attempt maxR 0 = maxR + 1) ∧
    (∀ (α : Type) (attempt : Nat → Except HttpErr α),
      execute_gmail_request attempt =
          execFrom attempt GMAIL_MAX_RETRIES 0 none ∧
        executeAttempts attempt =
          execAttemptsFrom attempt GMAIL_MAX_RETRIES 0) := by
  refine ⟨?_, ?_, fun α attempt => ⟨rfl, rfl⟩⟩
  · intro α maxR k attempt v hk hfail hok
    have h := execFrom_success_run α k attempt maxR k 0 none v (by omega)
      (by omega) hk (fun j hj1 hj2 => hfail j hj2) hok
    simpa using h
  · intro α maxR attempt errF hfail
    have h := execFrom_allfail_run α maxR attempt maxR 0 none errF
      (by omega) (by omega) (fun j hj1 hj2 => hfail j hj2)
    simpa using h

/-- Witness for C3: two 429 failures then success returns the payload in
three attempts; four 503 failures exhaust the default budget of three
retries. -/
theorem execute_retry_budget_witness :
    (execFrom twoFailAttempt 3 0 none = .ok 7 ∧
      execAttemptsFrom twoFailAttempt 3 0 = 2 + 1) ∧
    (execFrom allFailAttempt 3 0 none = .error (.http ⟨503, none⟩) ∧
      execAttemptsFrom allFailAttempt 3 0 = 3 + 1) :=
  ⟨execute_retry_budget.1 Nat 3 2 twoFailAttempt 7 (by omega)
    (fun j hj => ⟨⟨429, none⟩, by simp [twoFailAttempt, hj], by decide⟩)
    (by simp [twoFailAttempt]),
   execute_retry_budget.2.1 Nat 3 allFailAttempt (fun _ => ⟨503, none⟩)
    (fun j _ => ⟨rfl, by simp [retryableStatus]⟩)⟩

/-! ## Rate-limiter invariants -/

theorem acquireStep_bound (rate cap : ℚ) (s : LimState) (cprev now : ℚ)
    (hr : 0 < rate) (hcap : 1 ≤ cap) (hst : 0 ≤ s.tokens)
    (hsl : s.last ≤ cprev) (hnow : cprev ≤ now) :
    0 ≤ (acquireStep rate cap s now).1.tokens ∧
    (acquireStep rate cap s now).1.last ≤ (acquireStep rate cap s now).2 ∧
    cprev ≤ (acquireStep rate cap s now).2 ∧
    creditAt rate cap (acquireStep rate cap s now).1
        (acquireStep rate cap s now).2 + 1 ≤
      creditAt rate cap s cprev +
        2 * rate * ((acquireStep rate cap s now).2 - cprev) := by
  have hnl : s.last ≤ now := le_trans hsl hnow
  have hrc : 0 < 2 * rate := by linarith
  set tk := refillTokens rate cap s now with htk
  have htk0 : 0 ≤ tk := by
    refine le_min (by linarith) ?_
    have h1 : 0 ≤ (now - s.last) * rate :=
      mul_nonneg (by linarith) (le_of_lt hr)
    linarith
  have htkc : tk ≤ cap := min_le_left _ _
  have hkey : tk ≤ creditAt rate cap s cprev + rate * (now - cprev) := by
    have h1 : s.tokens + (now - s.last) * rate =
        s.tokens + (cprev - s.last) * rate + (now - cprev) * rate := by
      ring
    have h2 : 0 ≤ (now - cprev) * rate :=
      mul_nonneg (by linarith) (le_of_lt hr)
    calc tk = min cap (s.tokens + (cprev - s.last) * rate +
          (now - cprev) * rate) := by rw [htk, refillTokens, h1]
    _ ≤ min (cap + (now - cprev) * rate)
          (s.tokens + (cprev - s.last) * rate + (now - cprev) * rate) := by
        exact min_le_min (by linarith) le_rfl
    _ = min cap (s.tokens + (cprev - s.last) * rate) +
          (now - cprev) * rate := min_add_add_right cap _ _
    _ = creditAt rate cap s cprev + rate * (now - cprev) := by
        rw [creditAt]; ring_nf
  have hposr : 0 ≤ rate * (now - cprev) :=
    mul_nonneg (le_of_lt hr) (by linarith)
  by_cases hlt : tk < 1
  · have hstep : acquireStep rate cap s now =
        (⟨0, now⟩, now + (1 - tk) / rate) := by
      rw [acquireStep]
      simp only [← htk]
      rw [if_pos hlt]
    have hdnn : 0 ≤ (1 - tk) / rate :=
      div_nonneg (by linarith) (le_of_lt hr)
    have hdiv : (1 - tk) / rate * rate = 1 - tk :=
      div_mul_cancel₀ _ (ne_of_gt hr)
    have hcred : creditAt rate cap (⟨0, now⟩ : LimState)
        (now + (1 - tk) / rate) = 1 - tk := by
      rw [creditAt]
      simp only
      have h3 : (0 : ℚ) + (now + (1 - tk) / rate - now) * rate = 1 - tk := by
        rw [show now + (1 - tk) / rate - now = (1 - tk) / rate by ring,
          hdiv]
        ring
      rw [h3]
      exact min_eq_right (by linarith)
    rw [hstep]
    refine ⟨le_refl 0, by simp only; linarith, by simp only; linarith, ?_⟩
    simp only
    rw [hcred]
    have hexp : 2 * rate * (now + (1 - tk) / rate - cprev) =
        2 * rate * (now - cprev) + 2 * (1 - tk) := by
      field_simp
      ring
    rw [hexp]
    linarith
  · have hstep : acquireStep rate cap s now = (⟨tk - 1, now⟩, now) := by
      rw [acquireStep]
      simp only [← htk]
      rw [if_neg hlt]
    have hcred : creditAt rate cap (⟨tk - 1, now⟩ : LimState) now =
        tk - 1 := by
      rw [creditAt]
      simp only
      rw [show tk - 1 + (now - now) * rate = tk - 1 by ring]
      exact min_eq_right (by linarith)
    rw [hstep]
    refine ⟨by simp only; linarith, le_refl now, hnow, ?_⟩
    simp only
    rw [hcred]
    linarith

theorem runAcquires_bound :
    ∀ (calls : List ℚ) (rate cap : ℚ) (s : LimState) (cprev : ℚ),
      0 < rate → 1 ≤ cap → 0 ≤ s.tokens → s.last ≤ cprev →
      validRun rate cap s cprev calls = true →
      0 ≤ (runAcquires rate cap s cprev calls).1.tokens ∧
      (runAcquires rate cap s cprev calls).1.last ≤
        (runAcquires rate cap s cprev calls).2 ∧
      cprev ≤ (runAcquires rate cap s cprev calls).2 ∧
      creditAt rate cap (runAcquires rate cap s cprev calls).1
          (runAcquires rate cap s cprev calls).2 +
          (calls.length : ℚ) ≤
        creditAt rate cap s cprev +
          2 * rate * ((runAcquires rate cap s cprev calls).2 - cprev) := by
  intro calls
  induction calls with
  | nil =>
    intro rate cap s cprev hr hcap hst hsl hv
    refine ⟨hst, hsl, le_refl cprev, ?_⟩
    simp [runAcquires]
  | cons now rest ih =>
    intro rate cap s cprev hr hcap hst hsl hv
    rw [validRun] at hv
    rw [Bool.and_eq_true] at hv
    obtain ⟨hcn, hvrest⟩ := hv
    have hcn2 : cprev ≤ now := of_decide_eq_true hcn
    obtain ⟨h1, h2, h3, h4⟩ :=
      acquireStep_bound rate cap s cprev now hr hcap hst hsl hcn2
    have hrun : runAcquires rate cap s cprev (now :: rest) =
        runAcquires rate cap (acquireStep rate cap s now).1
          (acquireStep rate cap s now).2 rest := by
      rw [runAcquires]
    obtain ⟨g1, g2, g3, g4⟩ := ih rate cap (acquireStep rate cap s now).1
      (acquireStep rate cap s now).2 hr hcap h1 h2 hvrest
    rw [hrun]
    refine ⟨g1, g2, le_trans h3 g3, ?_⟩
    have hlen : ((now :: rest).length : ℚ) = (rest.length : ℚ) + 1 := by
      push_cast [List.length_cons]
      ring
    rw [hlen]
    linarith

theorem runAcquires_burst :
    ∀ (m : Nat) (rate cap tk t : ℚ), 0 < rate → (m : ℚ) ≤ tk → tk ≤ cap →
      runAcquires rate cap ⟨tk, t⟩ t (List.replicate m t) =
        (⟨tk - m, t⟩, t) := by
  intro m
  induction m with
  | zero =>
    intro rate cap tk t hr hm hc
    simp [runAcquires]
  | succ m ih =>
    intro rate cap tk t hr hm hc
    have hm2 : (m : ℚ) + 1 ≤ tk := by push_cast at hm; linarith
    have hm0 : (0 : ℚ) ≤ (m : ℚ) := Nat.cast_nonneg m
    have hstep : acquireStep rate cap ⟨tk, t⟩ t = (⟨tk - 1, t⟩, t) := by
      rw [acquireStep, refillTokens]
      simp only
      rw [show tk + (t - t) * rate = tk by ring]
      rw [min_eq_right hc]
      rw [if_neg (by linarith)]
    rw [List.replicate_succ, runAcquires, hstep]
    have hres := ih rate cap (tk - 1) t hr (by linarith) (by linarith)
    simp only at hres ⊢
    rw [hres]
    have : tk - 1 - (m : ℚ) = tk - ((m + 1 : Nat) : ℚ) := by
      push_cast
      ring
    rw [this]

/-! ## Claim C7: rate-limiter timing -/

/-- C7 counterexample: with rate 1 and capacity 2 and a full bucket, two
acquisitions at instant 0 form an admissible serialized run in which both
consumptions complete at instant 0, so the span of N = 2 consumptions is
0, strictly below (N-1)/rate = 1 second. -/
theorem rate_limiter_counterexample :
    validRun 1 2 ⟨2, 0⟩ 0 [0, 0] = true ∧
    (acquireStep 1 2 ⟨2, 0⟩ 0).2 = 0 ∧
    (runAcquires 1 2 ⟨2, 0⟩ 0 [0, 0]).2 = 0 ∧
    ¬ (((2 : ℚ) - 1) / 1 ≤ (runAcquires 1 2 ⟨2, 0⟩ 0 [0, 0]).2 -
        (acquireStep 1 2 ⟨2, 0⟩ 0).2) := by
  refine ⟨?_, ?_, ?_, ?_⟩ <;>
    norm_num [validRun, runAcquires, acquireStep, refillTokens]

/-- C7 amended: from any reachable limiter state (non-negative balance)
the completion instant of the N-th subsequent consumption lies at least
(N - capacity) / (2 rate) after the reference instant — not (N-1)/rate:
a burst of up to capacity consumptions is immediate, and because acquire
records the refill instant before sleeping, the slept interval can be
credited twice, halving the worst-case guaranteed spacing.  A burst of at
most capacity acquisitions against a full bucket (as after sufficient
idle time) incurs no sleep: every consumption completes at its call
instant. -/
theorem rate_limiter_span :
    (∀ (rate cap : ℚ) (s : LimState) (c0 : ℚ) (calls : List ℚ),
      0 < rate → 1 ≤ cap → 0 ≤ s.tokens → s.last ≤ c0 →
      validRun rate cap s c0 calls = true →
      ((calls.length : ℚ) - cap) / (2 * rate) ≤
        (runAcquires rate cap s c0 calls).2 - c0) ∧
    (∀ (rate cap t : ℚ) (m : Nat), 0 < rate → (m : ℚ) ≤ cap →
      runAcquires rate cap ⟨cap, t⟩ t (List.replicate m t) =
        (⟨cap - m, t⟩, t)) := by
  constructor
  · intro rate cap s c0 calls hr hcap hst hsl hv
    obtain ⟨f1, f2, f3, f4⟩ :=
      runAcquires_bound calls rate cap s c0 hr hcap hst hsl hv
    have hcred0 : creditAt rate cap s c0 ≤ cap := min_le_left _ _
    have hcredF : 0 ≤ creditAt rate cap
        (runAcquires rate cap s c0 calls).1
        (runAcquires rate cap s c0 calls).2 := by
      refine le_min (by linarith) ?_
      have h5 : 0 ≤ ((runAcquires rate cap s c0 calls).2 -
          (runAcquires rate cap s c0 calls).1.last) * rate :=
        mul_nonneg (by linarith) (le_of_lt hr)
      linarith
    have h2r : 0 < 2 * rate := by linarith
    rw [div_le_iff h2r]
    nlinarith
  · intro rate cap t m hr hm
    exact runAcquires_burst m rate cap cap t hr hm le_rfl

/-- Witness for C7 amended: the span bound at the two-acquisition burst
run, and a two-acquisition burst against a full bucket of capacity two
completing immediately. -/
theorem rate_limiter_span_witness :
    ((([(0 : ℚ), 0] : List ℚ).length : ℚ) - 2) / (2 * 1) ≤
      (runAcquires 1 2 ⟨2, 0⟩ 0 [0, 0]).2 - 0 ∧
    runAcquires 1 2 ⟨2, 0⟩ 0 (List.replicate 2 0) =
      (⟨2 - ((2 : Nat) : ℚ), 0⟩, 0) :=
  ⟨rate_limiter_span.1 1 2 ⟨2, 0⟩ 0 [0, 0] (by norm_num) (by norm_num)
    (by norm_num) (by norm_num)
    (by norm_num [validRun, acquireStep, refillTokens]),
   rate_limiter_span.2 1 2 0 2 (by norm_num) (by norm_num)⟩

end GmailReader
